import Mathlib

set_option maxRecDepth 16384

/-!
Verification development for the rm690b0 bitmap-font codec of the
ws-esp32-s3-amoled-241 repository.

The Python sources `fonts/ttf_to_rm690b0.py` (encoder) and
`fonts/test_converted_font.py` (decoder/validator) are shallowly embedded
here.  Strings are modelled as `List Char`, Python integers as `Nat`
(or `Int` where Python subtraction can go negative), and the Python `re`
searches are modelled by a small backtracking matcher specialised to the
exact patterns the decoder uses (every quantifier in those patterns ranges
over a single character class, which the matcher implements with the same
leftmost / greedy / lazy preference order as Python `re`).

The PIL rasterisation step of `render_character` (an external service per
the spec) is abstracted as a pixel grid `pixels : Nat → Nat → Nat`; the
thresholding and bit-packing loops that follow it are embedded faithfully.
-/

/-! ### Encoder: fonts/ttf_to_rm690b0.py -/

/-- One converted character, as built by `convert_ttf_to_rm690b0`
(the dict `{"codepoint": ..., "char": ..., "bytes": ...}`). -/
structure EncChar where
  codepoint : Nat
  char : Char
  bytes : List Nat
deriving Repr, DecidableEq

/-- `render_character` (lines 73–87 of ttf_to_rm690b0.py): the pixel grid the
PIL rasteriser produced is abstracted as `pixels`; each row value gets bit
`width - 1 - x` set iff pixel `(x, y)` is above the 128 threshold. -/
def render_character (pixels : Nat → Nat → Nat) (width height : Nat) : List Nat :=
  (List.range height).map fun y =>
    (List.range width).foldl
      (fun row_value x =>
        if pixels x y > 128 then row_value ||| (1 <<< (width - 1 - x)) else row_value)
      0

/-- The bytes one row value contributes (the inner loop of `rows_to_bytes`,
ttf_to_rm690b0.py lines 106–109): `(row_value >> ((bpr - 1 - byte_idx) * 8)) & 0xFF`
for each `byte_idx`, most-significant byte first. -/
def row_bytes_of (bytes_per_row row_value : Nat) : List Nat :=
  (List.range bytes_per_row).map fun byte_idx =>
    (row_value >>> ((bytes_per_row - 1 - byte_idx) * 8)) &&& 255

/-- `rows_to_bytes` (ttf_to_rm690b0.py lines 90–111): split each row value into
`bytes_per_row = (width + 7) / 8` bytes, most-significant byte first. -/
def rows_to_bytes (rows : List Nat) (width : Nat) : List Nat :=
  let bytes_per_row := (width + 7) / 8
  (rows.map (row_bytes_of bytes_per_row)).flatten

/-- `convert_ttf_to_rm690b0` (lines 114–166): one `EncChar` per codepoint in
`start_char..end_char` inclusive.  `glyphSource c` is the rasterised coverage
grid for codepoint `c`. -/
def convert_ttf_to_rm690b0 (glyphSource : Nat → Nat → Nat → Nat)
    (width height start_char end_char : Nat) : List EncChar :=
  (List.range (end_char + 1 - start_char)).map fun i =>
    { codepoint := start_char + i
      char := Char.ofNat (start_char + i)
      bytes := rows_to_bytes (render_character (glyphSource (start_char + i)) width height) width }

/-- Shorthand: the characters of a string literal. -/
def S (s : String) : List Char := s.data

/-- The backslash character (0x5C). -/
def bslash : Char := Char.ofNat 92

/-- The single-quote character (0x27). -/
def squote : Char := Char.ofNat 39

/-- Uppercase hex digits of `n` (Python `"%X"`). -/
def hexDigits (n : Nat) : List Char := (Nat.toDigits 16 n).map Char.toUpper

/-- Python `"%02X"`: uppercase hex, zero-padded to at least two digits. -/
def hex2 (n : Nat) : List Char :=
  let d := hexDigits n
  if d.length < 2 then List.replicate (2 - d.length) '0' ++ d else d

/-- Python `str(n)` for a natural number. -/
def decStr (n : Nat) : List Char := Nat.toDigits 10 n

/-- The comment display of a character (generate_header_file lines 219–235). -/
def chDisplay (ch : Char) : List Char :=
  if ch = bslash then [bslash, bslash]
  else if ch = squote then [bslash, squote]
  else if ch = '"' then [bslash, '"']
  else if ch = '\n' then [bslash, 'n']
  else if ch = '\r' then [bslash, 'r']
  else if ch = '\t' then [bslash, 't']
  else if ch.toNat < 32 ∨ ch.toNat > 126 then [bslash, 'x'] ++ hex2 ch.toNat
  else [ch]

/-- The byte list of one glyph as written by generate_header_file lines 240–248
(separators depend only on the byte's index). -/
def bytesText (bs : List Nat) : List Char :=
  (bs.enum.map fun p =>
    (if p.1 > 0 then S "," else [])
      ++ (if p.1 % 16 = 0 then S "\n     " else S " ")
      ++ S "0x" ++ hex2 p.2).flatten

/-- One glyph block of the emitted header (lines 237–250). -/
def charBlock (c : EncChar) : List Char :=
  S "    // 0x" ++ hex2 c.codepoint ++ S " " ++ [squote] ++ chDisplay c.char ++ [squote]
    ++ S "\n    \x7b" ++ bytesText c.bytes ++ S "\n    \x7d,\n"

/-- `generate_header_file` (ttf_to_rm690b0.py lines 169–252) as a pure function
returning the emitted file content; `none` models the `IndexError` Python
raises on an empty character list (`characters[0]`). -/
def generate_header_file (characters : List EncChar) (font_name : List Char)
    (width height start_char : Nat) (ttf_source : List Char) : Option (List Char) :=
  match characters with
  | [] => none
  | c0 :: rest =>
    let last := (c0 :: rest).getLast (by simp)
    let bytes_per_char := c0.bytes.length
    let bytes_per_row := (width + 7) / 8
    some (
      S "#pragma once\n\n"
      ++ S "#include <stdint.h>\n\n"
      ++ S "// Font: " ++ ttf_source ++ S "\n"
      ++ S "// Size: " ++ decStr width ++ S "x" ++ decStr height ++ S " pixels\n"
      ++ S "// Characters: 0x" ++ hex2 start_char ++ S "..0x" ++ hex2 last.codepoint ++ S " "
      ++ S "(" ++ [squote, Char.ofNat start_char, squote] ++ S ".." ++ [squote, last.char, squote] ++ S ")\n"
      ++ S "// Each character: " ++ decStr bytes_per_char ++ S " bytes (" ++ decStr height
            ++ S " rows Ã— " ++ decStr bytes_per_row ++ S " bytes per row)\n"
      ++ S "// Each row: " ++ decStr bytes_per_row ++ S " byte(s) for " ++ decStr width
            ++ S " pixels, MSB = leftmost pixel\n"
      ++ S "// Indexing: glyph = " ++ font_name ++ S "_data[codepoint - 0x" ++ hex2 start_char ++ S "] "
      ++ S "for 0x" ++ hex2 start_char ++ S " <= codepoint <= 0x" ++ hex2 last.codepoint ++ S "\n"
      ++ S "//\n"
      ++ S "// Generated by ttf_to_rm690b0.py\n\n"
      ++ S "static const uint8_t " ++ font_name ++ S "_data[" ++ decStr (c0 :: rest).length
            ++ S "][" ++ decStr bytes_per_char ++ S "] = \x7b\n"
      ++ ((c0 :: rest).map charBlock).flatten
      ++ S "\x7d;\n")

/-- The row-value reconstruction loop of the encoder's `visualize_character`
(ttf_to_rm690b0.py lines 276–278): `row_value |= byte << ((bpr - 1 - i) * 8)`
over `enumerate(row_bytes)`. -/
def viz_enc_row_value (bytes_per_row : Nat) : Nat → Nat → List Nat → Nat
  | row_value, _, [] => row_value
  | row_value, i, b :: rest =>
    viz_enc_row_value bytes_per_row (row_value ||| (b <<< ((bytes_per_row - 1 - i) * 8))) (i + 1) rest

/-- One ASCII-art line of the encoder's `visualize_character` (lines 281–286). -/
def viz_enc_line (width row_value : Nat) : List Char :=
  (List.range width).foldl
    (fun line x =>
      line ++ (if row_value &&& (1 <<< (width - 1 - x)) ≠ 0 then ['#'] else ['.']))
    []

/-- Python newline-join of a list of lines. -/
def joinNL : List (List Char) → List Char
  | [] => []
  | [l] => l
  | l :: l2 :: ls => l ++ '\n' :: joinNL (l2 :: ls)

/-- The encoder's `visualize_character` (ttf_to_rm690b0.py lines 255–290):
foreground `#`, background `.`. -/
def visualize_character_enc (byte_data : List Nat) (width height : Nat) : List Char :=
  let bytes_per_row := (width + 7) / 8
  joinNL ((List.range height).map fun row =>
    viz_enc_line width
      (viz_enc_row_value bytes_per_row 0 0 ((byte_data.drop (row * bytes_per_row)).take bytes_per_row)))

/-! ### Decoder: fonts/test_converted_font.py

The decoder recovers everything with `re.search` / `re.finditer` /
`re.findall`.  Every quantifier in its patterns ranges over one character
class, so a pattern is modelled as a list of quantified character classes
(some capturing), and matching backtracks through candidate splits in
Python's preference order: leftmost position first, greedy quantifiers
longest-first, lazy quantifiers shortest-first. -/

/-- Character classes appearing in the decoder's regexes. -/
inductive CClass
  | lit (c : Char)
  | digit
  | hexdigit
  | word
  | space
  | anyc
deriving Repr, DecidableEq

/-- Quantifiers appearing in the decoder's regexes. -/
inductive Quant
  | one
  | star (lazy : Bool)
  | plus (lazy : Bool)
deriving Repr, DecidableEq

/-- One element of a pattern: a quantified character class, possibly a
capturing group. -/
structure RItem where
  cls : CClass
  quant : Quant
  cap : Bool
deriving Repr, DecidableEq

/-- Which characters a class matches.  The decoder's input is ASCII wherever
a non-trivial class is applied, so the ASCII readings of `\d`, `\w`, `\s`,
`[0-9A-Fa-f]` are used; `.` is used only under `re.DOTALL` and so matches
everything. -/
def classMatch : CClass → Char → Bool
  | .lit a, c => c == a
  | .digit, c => c.isDigit
  | .hexdigit, c => c.isDigit || ('a' ≤ c && c ≤ 'f') || ('A' ≤ c && c ≤ 'F')
  | .word, c => c.isAlphanum || c == '_'
  | .space, c => c == ' ' || c == '\t' || c == '\n' || c == '\r' || c.toNat == 11 || c.toNat == 12
  | .anyc, _ => true

/-- Maximal run of characters matching `cl` at the head of `s`, plus the
remainder. -/
def takeRun (cl : CClass) : List Char → List Char × List Char
  | [] => ([], [])
  | c :: rest =>
    if classMatch cl c then
      let p := takeRun cl rest
      (c :: p.1, p.2)
    else ([], c :: rest)

/-- The candidate (consumed, remainder) splits for one quantified class, in
the order Python `re` tries them: a greedy quantifier longest-first, a lazy
one shortest-first; `+` excludes the empty split. -/
def atomSplits (it : RItem) (s : List Char) : List (List Char × List Char) :=
  match it.quant with
  | .one =>
    match s with
    | [] => []
    | c :: rest => if classMatch it.cls c then [([c], rest)] else []
  | .star lazy =>
    let p := takeRun it.cls s
    let base := (List.range (p.1.length + 1)).map fun i => (p.1.take i, p.1.drop i ++ p.2)
    if lazy then base else base.reverse
  | .plus lazy =>
    let p := takeRun it.cls s
    let base := ((List.range (p.1.length + 1)).map fun i => (p.1.take i, p.1.drop i ++ p.2)).drop 1
    if lazy then base else base.reverse

/-- Backtracking matcher: match the items against a prefix of `s`, returning
the captured groups in order and the remainder of `s`.  `fuel` only bounds the
recursion depth, which equals the item count; `rmatch` supplies enough. -/
def matchItemsF : Nat → List RItem → List Char → Option (List (List Char) × List Char)
  | 0, _, _ => none
  | _ + 1, [], s => some ([], s)
  | fuel + 1, it :: its, s =>
    (atomSplits it s).findSome? fun pr =>
      (matchItemsF fuel its pr.2).map fun r =>
        (if it.cap then pr.1 :: r.1 else r.1, r.2)

/-- Match a pattern at the start of `s` (Python `re.match` semantics). -/
def rmatch (p : List RItem) (s : List Char) : Option (List (List Char) × List Char) :=
  matchItemsF (p.length + 1) p s

/-- Python `re.search`: try each start position left to right. -/
def searchPat (p : List RItem) : List Char → Option (List (List Char) × List Char)
  | [] => rmatch p []
  | c :: rest =>
    match rmatch p (c :: rest) with
    | some r => some r
    | none => searchPat p rest

/-- Python `re.finditer` (capture groups of each non-overlapping match, left
to right).  Every pattern it is used with here consumes at least one
character per match, so `s.length + 1` units of fuel are enough. -/
def findIterF (p : List RItem) : Nat → List Char → List (List (List Char))
  | 0, _ => []
  | fuel + 1, s =>
    match searchPat p s with
    | none => []
    | some (caps, rest) => caps :: findIterF p fuel rest

/-- `re.finditer` over all of `s`. -/
def findIter (p : List RItem) (s : List Char) : List (List (List Char)) :=
  findIterF p (s.length + 1) s

/-- A literal, non-capturing single character item. -/
def litem (c : Char) : RItem := ⟨CClass.lit c, Quant.one, false⟩

/-- Literal items for every character of a string. -/
def L (s : String) : List RItem := s.data.map litem

/-- A capturing greedy `+` over a class. -/
def grpPlus (cl : CClass) : RItem := ⟨cl, Quant.plus false, true⟩

/-- Non-capturing greedy whitespace star. -/
def spaceStar : RItem := ⟨CClass.space, Quant.star false, false⟩

/-- Non-capturing greedy whitespace plus. -/
def spacePlus : RItem := ⟨CClass.space, Quant.plus false, false⟩

/-- A lazy dot-star under `re.DOTALL`, capturing or not. -/
def anyLazy (cap : Bool) : RItem := ⟨CClass.anyc, Quant.star true, cap⟩

/-- Pattern for the size line (test_converted_font.py line 38). -/
def P_size : List RItem :=
  L "Size:" ++ [spaceStar, grpPlus CClass.digit, litem 'x', grpPlus CClass.digit, spaceStar] ++ L "pixels"

/-- Pattern for the character-range line (lines 44–46). -/
def P_range : List RItem :=
  L "Characters:" ++ [spaceStar] ++ L "0x" ++ [grpPlus CClass.hexdigit] ++ L "..0x" ++ [grpPlus CClass.hexdigit]

/-- Pattern for the array name (line 52). -/
def P_array : List RItem :=
  L "static const uint8_t" ++ [spacePlus, grpPlus CClass.word] ++ L "_data["

/-- Pattern for the array body (line 61), with the font name interpolated. -/
def P_body (nm : List Char) : List RItem :=
  nm.map litem ++ L "_data[" ++ [anyLazy false] ++ L "][" ++ [anyLazy false] ++ L "]"
    ++ [spaceStar, litem '=', spaceStar] ++ L "\x7b" ++ [anyLazy true] ++ L "\x7d;"

/-- Pattern for one character entry (line 70). -/
def P_char : List RItem :=
  L "// 0x" ++ [grpPlus CClass.hexdigit, spacePlus, litem squote, anyLazy true, litem squote]
    ++ [spaceStar, litem '\n', spaceStar] ++ L "\x7b" ++ [anyLazy true] ++ L "\x7d"

/-- Pattern for one hex byte literal (line 78). -/
def P_hexlit : List RItem := L "0x" ++ [grpPlus CClass.hexdigit]

/-- Value of a hex digit (either case). -/
def hexVal (c : Char) : Nat :=
  if c.isDigit then c.toNat - 48
  else if 'a' ≤ c ∧ c ≤ 'f' then c.toNat - 87
  else c.toNat - 55

/-- Python `int(s, 16)` on a string of hex digits. -/
def hexToNat (s : List Char) : Nat := s.foldl (fun a c => 16 * a + hexVal c) 0

/-- Python `int(s)` on a string of decimal digits. -/
def decToNat (s : List Char) : Nat := s.foldl (fun a c => 10 * a + (c.toNat - 48)) 0

/-- The `width`/`height` extraction (lines 38–41): `none` when the size line
is absent, mirroring the Python variables staying `None`. -/
def extractSize (content : List Char) : Option (Nat × Nat) :=
  (searchPat P_size content).map fun r => (decToNat (r.1.getD 0 []), decToNat (r.1.getD 1 []))

/-- The `char_start`/`char_end` extraction (lines 44–49). -/
def extractRange (content : List Char) : Option (Nat × Nat) :=
  (searchPat P_range content).map fun r => (hexToNat (r.1.getD 0 []), hexToNat (r.1.getD 1 []))

/-- The font-name extraction (lines 52–54). -/
def extractName (content : List Char) : Option (List Char) :=
  (searchPat P_array content).map fun r => r.1.getD 0 []

/-- Python truthiness of an optional integer: `None` and `0` are falsy. -/
def truthyNum : Option Nat → Bool
  | none => false
  | some n => !(n == 0)

/-- Python truthiness of an optional string: `None` and `""` are falsy. -/
def truthyStr : Option (List Char) → Bool
  | none => false
  | some s => !s.isEmpty

/-- The escaped-comment decoding of lines 81–101. -/
def decodeDisplay (d : List Char) : List Char :=
  if d.take 1 = [bslash] then
    if d = [bslash, bslash] then [bslash]
    else if d = [bslash, squote] then [squote]
    else if d = [bslash, '"'] then ['"']
    else if d = [bslash, 'n'] then ['\n']
    else if d = [bslash, 'r'] then ['\r']
    else if d = [bslash, 't'] then ['\t']
    else if d.take 2 = [bslash, 'x'] then [Char.ofNat (hexToNat (d.drop 2))]
    else d
  else d

/-- One parsed character entry (the dict of line 103). -/
structure CharEntry where
  codepoint : Nat
  char : List Char
  bytes : List Nat
deriving Repr, DecidableEq

/-- The parsed font header (the dict of lines 105–112). -/
structure FontData where
  name : List Char
  width : Nat
  height : Nat
  char_start : Nat
  char_end : Nat
  characters : List CharEntry
deriving Repr, DecidableEq

/-- The two `ValueError`s `parse_font_header` can raise: missing/falsy
metadata (line 57) and a missing data array (line 64). -/
inductive ParseErr
  | metadata
  | arrayNotFound
deriving Repr, DecidableEq

/-- `parse_font_header` (test_converted_font.py lines 20–112). -/
def parse_font_header (content : List Char) : Except ParseErr FontData :=
  let size? := extractSize content
  let range? := extractRange content
  let name? := extractName content
  if truthyNum (size?.map Prod.fst) && truthyNum (size?.map Prod.snd)
      && truthyNum (range?.map Prod.fst) && truthyNum (range?.map Prod.snd)
      && truthyStr name? then
    match searchPat (P_body (name?.getD [])) content with
    | none => Except.error ParseErr.arrayNotFound
    | some r =>
      let body := r.1.getD 0 []
      Except.ok
        { name := name?.getD []
          width := (size?.map Prod.fst).getD 0
          height := (size?.map Prod.snd).getD 0
          char_start := (range?.map Prod.fst).getD 0
          char_end := (range?.map Prod.snd).getD 0
          characters := (findIter P_char body).map fun caps =>
            { codepoint := hexToNat (caps.getD 0 [])
              char := decodeDisplay (caps.getD 1 [])
              bytes := (findIter P_hexlit (caps.getD 2 [])).map fun bc => hexToNat (bc.getD 0 []) } }
  else Except.error ParseErr.metadata

/-- The row-value reconstruction loop of the decoder's `visualize_character`
(test_converted_font.py lines 137–140). -/
def viz_dec_row_value (bytes_per_row : Nat) : Nat → Nat → List Nat → Nat
  | row_value, _, [] => row_value
  | row_value, i, b :: rest =>
    viz_dec_row_value bytes_per_row (row_value ||| (b <<< ((bytes_per_row - 1 - i) * 8))) (i + 1) rest

/-- One art line of the decoder's `visualize_character` (lines 143–149):
foreground `█`, background `·`. -/
def viz_dec_line (width row_value : Nat) : List Char :=
  (List.range width).foldl
    (fun line x =>
      line ++ (if row_value &&& (1 <<< (width - 1 - x)) ≠ 0 then ['█'] else ['·']))
    []

/-- The decoder's `visualize_character` (test_converted_font.py lines 115–153). -/
def visualize_character_dec (byte_data : List Nat) (width height : Nat) : List Char :=
  let bytes_per_row := (width + 7) / 8
  joinNL ((List.range height).map fun row =>
    viz_dec_line width
      (viz_dec_row_value bytes_per_row 0 0 ((byte_data.drop (row * bytes_per_row)).take bytes_per_row)))

/-- The validation findings of `test_font_file` (lines 198–229), carrying the
data its error strings interpolate.  `expected` of `countMismatch` is an
`Int` because Python computes `char_end - char_start + 1` with signed
integers. -/
inductive VErr
  | countMismatch (got : Nat) (expected : Int)
  | sizeMismatch (codepoint got expected : Nat)
  | seqBreak (index got expected : Nat)
deriving Repr, DecidableEq

/-- The codepoint-sequence check (lines 221–228): first index whose codepoint
differs from `char_start + i`, if any (the loop breaks at the first hit). -/
def firstSeqErrAux (char_start : Nat) : Nat → List CharEntry → Option VErr
  | _, [] => none
  | i, c :: rest =>
    if c.codepoint ≠ char_start + i then some (VErr.seqBreak i c.codepoint (char_start + i))
    else firstSeqErrAux char_start (i + 1) rest

/-- The `errors` list accumulated by `test_font_file` (lines 198–229): the
count check appends at most one error, the byte-count loop breaks at its
first offender, the sequence loop breaks at its first offender, and the three
checks all run. -/
def validationErrors (fd : FontData) : List VErr :=
  let bytes_per_row := (fd.width + 7) / 8
  let expected_count : Int := (fd.char_end : Int) - (fd.char_start : Int) + 1
  let countErrs : List VErr :=
    if (fd.characters.length : Int) ≠ expected_count then
      [VErr.countMismatch fd.characters.length expected_count]
    else []
  let expected_bytes := fd.height * bytes_per_row
  let sizeErrs : List VErr :=
    match fd.characters.find? (fun c => c.bytes.length != expected_bytes) with
    | some c => [VErr.sizeMismatch c.codepoint c.bytes.length expected_bytes]
    | none => []
  let seqErrs : List VErr :=
    match firstSeqErrAux fd.char_start 0 fd.characters with
    | some e => [e]
    | none => []
  countErrs ++ sizeErrs ++ seqErrs

/-- The uncaught exception `test_font_file` can die of: indexing
`characters[0]` of an empty list (line 186). -/
inductive PyErr
  | indexError
deriving Repr, DecidableEq

/-- `test_font_file` (test_converted_font.py lines 156–340) up to its return
code: parse errors are caught and turn into return value 1 (lines 171–175);
an empty character list crashes with `IndexError` at line 186; validation
errors give return value 1 (lines 231–235); otherwise 0. -/
def test_font_file (content : List Char) : Except PyErr Nat :=
  match parse_font_header content with
  | Except.error _ => Except.ok 1
  | Except.ok fd =>
    match fd.characters.head? with
    | none => Except.error PyErr.indexError
    | some _ =>
      if validationErrors fd ≠ [] then Except.ok 1 else Except.ok 0

/-! ### Derived decoder of the packed bytes, used to state the round trip -/

/-- Row values read back from packed bytes exactly the way both
`visualize_character` functions do it: slice `bytes_per_row` bytes per row and
recombine them most-significant byte first (`viz_enc_row_value`). -/
def rows_from_bytes (byte_data : List Nat) (width height : Nat) : List Nat :=
  let bytes_per_row := (width + 7) / 8
  (List.range height).map fun row =>
    viz_enc_row_value bytes_per_row 0 0 ((byte_data.drop (row * bytes_per_row)).take bytes_per_row)

/-! ### Definitions used to state the claims -/

/-- The `FontData` view of an encoder table together with its declared
configuration: exactly the fields the decoder recovers for it (each parsed
character's `char` is the one-character string of the encoder's char). -/
def enc_font_data (tbl : List EncChar) (nm : List Char)
    (width height char_start char_end : Nat) : FontData :=
  { name := nm
    width := width
    height := height
    char_start := char_start
    char_end := char_end
    characters := tbl.map fun c => { codepoint := c.codepoint, char := [c.char], bytes := c.bytes } }

/-- Is a validation finding a character-count mismatch? -/
def isCountErr : VErr → Bool
  | VErr.countMismatch _ _ => true
  | _ => false

/-- Is a validation finding a per-glyph byte-count mismatch? -/
def isSizeErr : VErr → Bool
  | VErr.sizeMismatch _ _ _ => true
  | _ => false

/-- Is a validation finding a codepoint-sequence break? -/
def isSeqErr : VErr → Bool
  | VErr.seqBreak _ _ _ => true
  | _ => false

/-- The character translation from the encoder visualizer's glyph alphabet
(`#` foreground, `.` background) to the decoder visualizer's (`█`, `·`). -/
def trViz (c : Char) : Char :=
  if c = '#' then '█' else if c = '.' then '·' else c

/-- A header whose five metadata fields are present and well-formed but whose
table body holds zero glyph entries. -/
def hdr6 : List Char :=
  S "// Size: 1x1 pixels\n// Characters: 0x41..0x41\nstatic const uint8_t f_data[0][1] = \x7b\n\x7d;\n"

/-- A header whose declared character range starts at codepoint 0x00 and is
otherwise well-formed. -/
def hdr9 : List Char :=
  S "// Size: 1x1 pixels\n// Characters: 0x00..0x41\nstatic const uint8_t f_data[1][1] = \x7b\n\x7d;\n"

/-- A header whose single glyph carries the hex literal `0x1FF` (value 511,
not a byte) in a one-byte-per-glyph layout. -/
def hdr10 : List Char :=
  S "// Size: 8x1 pixels\n// Characters: 0x41..0x41\nstatic const uint8_t f_data[1][1] = \x7b\n    // 0x41 "
    ++ [squote, 'A', squote]
    ++ S "\n    \x7b\n     0x1FF\n    \x7d,\n\x7d;\n"

/-- The parse of `hdr10`. -/
def fd10 : FontData :=
  { name := S "f"
    width := 8
    height := 1
    char_start := 65
    char_end := 65
    characters := [{ codepoint := 65, char := ['A'], bytes := [511] }] }

/-- A parsed table violating all three invariants at once: metadata announces
five glyphs of one byte each starting at 0x20, but a single glyph is present,
with zero bytes, at codepoint 0x21. -/
def fd5 : FontData :=
  { name := S "f"
    width := 8
    height := 1
    char_start := 32
    char_end := 36
    characters := [{ codepoint := 33, char := ['!'], bytes := [] }] }

/-- A parsed table correct in count and sizes whose single corruption is the
codepoint at index 1 (0x50 instead of 0x42). -/
def fd7 : FontData :=
  { name := S "f"
    width := 8
    height := 1
    char_start := 65
    char_end := 66
    characters := [{ codepoint := 65, char := ['A'], bytes := [0] },
                   { codepoint := 80, char := ['P'], bytes := [0] }] }

/-! ### Lemmas: bit-packing arithmetic -/

/-- A shifted value or-ed with a value fitting below the shift is their sum. -/
theorem shiftLeft_lor_eq_add (k : Nat) : ∀ a b : Nat, b < 2 ^ k → (a <<< k) ||| b = a <<< k + b := by
  induction k with
  | zero =>
    intro a b hb
    interval_cases b
    simp
  | succ k ih =>
    intro a b hb
    have hb2 : b / 2 < 2 ^ k := by
      have : b < 2 ^ k * 2 := by rw [pow_succ] at hb; omega
      omega
    have hbit : b = Nat.bit (b % 2 = 1) (b / 2) := by
      simp only [Nat.bit, Bool.cond_decide]
      rcases Nat.mod_two_eq_zero_or_one b with h | h <;> simp [h] <;> omega
    have hsh : a <<< (k + 1) = Nat.bit false (a <<< k) := by
      simp only [Nat.bit, Bool.cond_false, Nat.shiftLeft_succ]
    rw [hsh, hbit, Nat.lor_bit, ih a (b / 2) hb2]
    simp only [Nat.bit, Bool.false_or, Bool.cond_decide, Bool.cond_false]
    rcases Nat.mod_two_eq_zero_or_one b with h | h <;> simp [h, Nat.shiftLeft_succ] <;> omega

theorem length_row_bytes_of (n v : Nat) : (row_bytes_of n v).length = n := by
  simp [row_bytes_of]

/-- Peeling the most significant byte off a packed row. -/
theorem row_bytes_of_succ (n v : Nat) :
    row_bytes_of (n + 1) v = ((v >>> (n * 8)) &&& 255) :: row_bytes_of n v := by
  simp only [row_bytes_of, List.range_succ_eq_map, List.map_cons, List.map_map]
  congr 1
  refine List.map_congr_left fun a _ => ?_
  simp only [Function.comp_apply]
  have h : n + 1 - 1 - (a + 1) = n - 1 - a := by omega
  rw [h]

/-- The reconstruction loop with a non-zero accumulator. -/
theorem viz_row_value_init (n : Nat) :
    ∀ (l : List Nat) (i rv : Nat),
      viz_enc_row_value n rv i l = rv ||| viz_enc_row_value n 0 i l := by
  intro l
  induction l with
  | nil => intro i rv; simp [viz_enc_row_value]
  | cons b rest ih =>
    intro i rv
    simp only [viz_enc_row_value]
    rw [ih (i + 1), ih (i + 1) (0 ||| _)]
    simp [Nat.lor_assoc]

/-- The reconstruction loop only depends on `bytes_per_row - index`. -/
theorem viz_row_value_shift (n : Nat) :
    ∀ (l : List Nat) (i rv : Nat),
      viz_enc_row_value (n + 1) rv (i + 1) l = viz_enc_row_value n rv i l := by
  intro l
  induction l with
  | nil => intro i rv; simp [viz_enc_row_value]
  | cons b rest ih =>
    intro i rv
    simp only [viz_enc_row_value]
    have h : n + 1 - 1 - (i + 1) = n - 1 - i := by omega
    rw [h]
    exact ih (i + 1) _

/-- Base-`m` digit decomposition of a double modulus. -/
theorem mod_mul_decomp (v m k : Nat) (hm : 0 < m) (hk : 0 < k) :
    v % (m * k) = (v / m % k) * m + v % m := by
  have hX : (v / m % k) * m + v % m < m * k := by
    have h1 : v % m < m := Nat.mod_lt _ hm
    have h2 : v / m % k < k := Nat.mod_lt _ hk
    calc (v / m % k) * m + v % m < (v / m % k) * m + m := by omega
      _ = (v / m % k + 1) * m := by ring
      _ ≤ k * m := Nat.mul_le_mul_right m (by omega)
      _ = m * k := by ring
  have e1 : v = m * (v / m) + v % m := (Nat.div_add_mod v m).symm
  have e2 : v / m = k * (v / m / k) + v / m % k := (Nat.div_add_mod (v / m) k).symm
  calc v % (m * k)
      = (m * (k * (v / m / k) + v / m % k) + v % m) % (m * k) := by rw [← e2, ← e1]
    _ = ((v / m % k) * m + v % m + (m * k) * (v / m / k)) % (m * k) := by ring_nf
    _ = ((v / m % k) * m + v % m) % (m * k) := Nat.add_mul_mod_self_left _ _ _
    _ = (v / m % k) * m + v % m := Nat.mod_eq_of_lt hX

/-- Recombining the packed bytes of a row recovers the row value modulo the
packed width. -/
theorem viz_row_value_unpack (n : Nat) :
    ∀ v : Nat, viz_enc_row_value n 0 0 (row_bytes_of n v) = v % 2 ^ (n * 8) := by
  induction n with
  | zero => intro v; simp [row_bytes_of, viz_enc_row_value, Nat.mod_one]
  | succ n ih =>
    intro v
    rw [row_bytes_of_succ]
    simp only [viz_enc_row_value]
    have h0 : n + 1 - 1 - 0 = n := by omega
    rw [h0]
    rw [show (0 : Nat) ||| ((v >>> (n * 8)) &&& 255) <<< (n * 8)
          = ((v >>> (n * 8)) &&& 255) <<< (n * 8) by simp]
    rw [show (0 : Nat) + 1 = 0 + 1 from rfl]
    rw [viz_row_value_shift n (row_bytes_of n v) 0]
    rw [viz_row_value_init, ih v]
    have hlt : v % 2 ^ (n * 8) < 2 ^ (n * 8) := Nat.mod_lt _ (Nat.pos_pow_of_pos _ (by omega))
    rw [shiftLeft_lor_eq_add (n * 8) _ _ hlt]
    have h255 : (v >>> (n * 8)) &&& 255 = v / 2 ^ (n * 8) % 2 ^ 8 := by
      rw [Nat.shiftRight_eq_div_pow]
      rw [show (255 : Nat) = 2 ^ 8 - 1 by norm_num]
      exact Nat.and_pow_two_sub_one_eq_mod _ 8
    rw [h255, Nat.shiftLeft_eq]
    have hsplit : (n + 1) * 8 = n * 8 + 8 := by ring
    rw [hsplit, pow_add]
    rw [mod_mul_decomp v (2 ^ (n * 8)) (2 ^ 8)
      (Nat.pos_pow_of_pos _ (by omega)) (by norm_num)]

/-- The slice of the flattened packed bytes belonging to row `y`. -/
theorem flatten_map_slice (n : Nat) (f : Nat → List Nat) (hf : ∀ r, (f r).length = n) :
    ∀ (rows : List Nat) (y : Nat), y < rows.length →
      (((rows.map f).flatten.drop (y * n)).take n) = f (rows.getD y 0) := by
  intro rows
  induction rows with
  | nil => intro y hy; simp at hy
  | cons a rest ih =>
    intro y hy
    cases y with
    | zero =>
      simp only [List.map_cons, List.flatten_cons, Nat.zero_mul, List.drop_zero, List.getD]
      rw [← hf a, List.take_left]
      simp
    | succ y' =>
      simp only [List.map_cons, List.flatten_cons]
      have hmul : (y' + 1) * n = n + y' * n := by ring
      rw [hmul, ← List.drop_drop]
      have hdrop : (f a ++ (rest.map f).flatten).drop n = (rest.map f).flatten := by
        rw [← hf a]
        exact List.drop_left _ _
      rw [hdrop]
      have hy' : y' < rest.length := by simpa using hy
      simpa using ih y' hy'

theorem range_map_getD : ∀ l : List Nat, (List.range l.length).map (fun y => l.getD y 0) = l := by
  intro l
  induction l with
  | nil => simp
  | cons a rest ih =>
    simp only [List.length_cons, List.range_succ_eq_map, List.map_cons, List.map_map]
    rw [show ((fun y => List.getD (a :: rest) y 0) ∘ Nat.succ) = (fun y => rest.getD y 0) from rfl]
    rw [ih]
    rfl

/-- Unpacking the packed bytes row by row, the way the visualizers do,
recovers every row value below `2 ^ width`. -/
theorem rows_from_bytes_rows_to_bytes (width : Nat) (rows : List Nat)
    (hrows : ∀ r ∈ rows, r < 2 ^ width) :
    rows_from_bytes (rows_to_bytes rows width) width rows.length = rows := by
  have hbpr : width ≤ ((width + 7) / 8) * 8 := by omega
  simp only [rows_from_bytes, rows_to_bytes]
  have hstep : ∀ y ∈ List.range rows.length,
      viz_enc_row_value ((width + 7) / 8) 0 0
        ((((rows.map (row_bytes_of ((width + 7) / 8))).flatten.drop
            (y * ((width + 7) / 8))).take ((width + 7) / 8)))
        = rows.getD y 0 := by
    intro y hy
    have hy' : y < rows.length := List.mem_range.mp hy
    rw [flatten_map_slice ((width + 7) / 8) (row_bytes_of ((width + 7) / 8))
      (fun r => length_row_bytes_of _ r) rows y hy']
    rw [viz_row_value_unpack]
    apply Nat.mod_eq_of_lt
    have hmem : rows.getD y 0 ∈ rows := by
      rw [List.getD_eq_getElem rows 0 hy']
      exact List.getElem_mem hy'
    calc rows.getD y 0 < 2 ^ width := hrows _ hmem
      _ ≤ 2 ^ (((width + 7) / 8) * 8) := Nat.pow_le_pow_right (by omega) hbpr
  rw [List.map_congr_left hstep, range_map_getD]

/-- The leading byte of every packed row only uses the `width - 8 * (bpr - 1)`
low bits: all the bits the packing leaves unused are zero. -/
theorem rows_to_bytes_first_byte (width : Nat) (rows : List Nat) (hw1 : 1 ≤ width)
    (hrows : ∀ r ∈ rows, r < 2 ^ width) :
    ∀ y < rows.length,
      (rows_to_bytes rows width).getD (y * ((width + 7) / 8)) 0
        < 2 ^ (width - ((width + 7) / 8 - 1) * 8) := by
  intro y hy
  have hflat : rows_to_bytes rows width = (rows.map (row_bytes_of ((width + 7) / 8))).flatten := by
    simp [rows_to_bytes]
  have hb1 : 1 ≤ (width + 7) / 8 := by omega
  obtain ⟨m, hm⟩ : ∃ m, (width + 7) / 8 = m + 1 := ⟨(width + 7) / 8 - 1, by omega⟩
  have hslice := flatten_map_slice ((width + 7) / 8) (row_bytes_of ((width + 7) / 8))
    (fun r => length_row_bytes_of _ r) rows y hy
  have hgd : (rows_to_bytes rows width).getD (y * ((width + 7) / 8)) 0
      = (((rows_to_bytes rows width).drop (y * ((width + 7) / 8))).take ((width + 7) / 8)).getD 0 0 := by
    rw [List.getD_eq_getElem?_getD, List.getD_eq_getElem?_getD]
    rw [List.getElem?_take_of_lt (by omega : 0 < (width + 7) / 8)]
    rw [List.getElem?_drop]
    norm_num
  rw [hgd, hflat, hslice, hm, row_bytes_of_succ, List.getD_cons_zero]
  have hmem : rows.getD y 0 ∈ rows := by
    rw [List.getD_eq_getElem rows 0 hy]
    exact List.getElem_mem hy
  have hv : rows.getD y 0 < 2 ^ width := hrows _ hmem
  have hms : m * 8 < width := by omega
  rw [show (255 : Nat) = 2 ^ 8 - 1 by norm_num, Nat.and_pow_two_sub_one_eq_mod,
    Nat.shiftRight_eq_div_pow]
  have hdiv : rows.getD y 0 / 2 ^ (m * 8) < 2 ^ (width - m * 8) := by
    rw [Nat.div_lt_iff_lt_mul (Nat.pos_pow_of_pos _ (by omega))]
    calc rows.getD y 0 < 2 ^ width := hv
      _ = 2 ^ (width - m * 8) * 2 ^ (m * 8) := by rw [← pow_add]; congr 1; omega
  have hsub : width - (m + 1 - 1) * 8 = width - m * 8 := by omega
  rw [hsub]
  exact lt_of_le_of_lt (Nat.mod_le _ _) hdiv

/-- C1: bit-packing round-trip identity.  For every cell width in 1..64 and
every list of row values below `2 ^ width`, reading the output of
`rows_to_bytes` back row by row — combining each row's `(width + 7) / 8`
bytes most-significant byte first, exactly as the `visualize_character`
functions do — reproduces the original row values, and the padding bits of
the packed bytes (the unused high bits of each row's leading byte, the only
byte positions not backed by pixels) are all zero. -/
theorem rows_pack_unpack_roundtrip (width : Nat) (rows : List Nat)
    (hw1 : 1 ≤ width) (_hw2 : width ≤ 64)
    (hrows : ∀ r ∈ rows, r < 2 ^ width) :
    rows_from_bytes (rows_to_bytes rows width) width rows.length = rows
    ∧ ∀ y < rows.length,
        (rows_to_bytes rows width).getD (y * ((width + 7) / 8)) 0
          < 2 ^ (width - ((width + 7) / 8 - 1) * 8) :=
  ⟨rows_from_bytes_rows_to_bytes width rows hrows,
   rows_to_bytes_first_byte width rows hw1 hrows⟩

/-- C1 witness: the round trip at the non-byte-multiple width 12 on the rows
`[5, 4095]`. -/
theorem rows_pack_unpack_roundtrip_witness :
    rows_from_bytes (rows_to_bytes [5, 4095] 12) 12 2 = [5, 4095]
    ∧ ∀ y < 2, (rows_to_bytes [5, 4095] 12).getD (y * 2) 0 < 2 ^ 4 :=
  rows_pack_unpack_roundtrip 12 [5, 4095] (by decide) (by decide) (by decide)

/-- C2: at `cell_width = 12` the row value 1 (pixel at `x = 11` set, a value
below `2 ^ 12`) packs to the bytes `[0x00, 0x01]`: the low four bits of the
row's second byte hold real pixel data (here the value 1), they are not
forced to 0.  The four bits `rows_to_bytes` leaves unused are the high bits
of the row's first byte instead. -/
theorem rows_to_bytes_width12_low_bits :
    rows_to_bytes [1] 12 = [0, 1] ∧ (rows_to_bytes [1] 12).getD 1 0 % 16 = 1 := by
  constructor
  · rfl
  · rfl

/-! ### Lemmas: encoder output structure and validator soundness -/

theorem length_rows_to_bytes (rows : List Nat) (width : Nat) :
    (rows_to_bytes rows width).length = rows.length * ((width + 7) / 8) := by
  have h : ∀ l : List Nat,
      ((l.map (row_bytes_of ((width + 7) / 8))).map List.length).sum
        = l.length * ((width + 7) / 8) := by
    intro l
    induction l with
    | nil => simp
    | cons a r ih =>
      simp only [List.map_cons, List.sum_cons, ih, length_row_bytes_of, List.length_cons]
      ring
  simp only [rows_to_bytes, List.length_flatten]
  exact h rows

theorem length_render_character (pixels : Nat → Nat → Nat) (width height : Nat) :
    (render_character pixels width height).length = height := by
  simp [render_character]

/-- The sequence check finds nothing exactly when every position carries the
expected codepoint. -/
theorem firstSeqErrAux_eq_none_iff (s : Nat) :
    ∀ (l : List CharEntry) (i : Nat),
      firstSeqErrAux s i l = none ↔
        ∀ j < l.length, (l.getD j ⟨0, [], []⟩).codepoint = s + i + j := by
  intro l
  induction l with
  | nil => intro i; simp [firstSeqErrAux]
  | cons c rest ih =>
    intro i
    simp only [firstSeqErrAux]
    by_cases hc : c.codepoint ≠ s + i
    · rw [if_pos hc]
      refine iff_of_false (by simp) fun h => ?_
      have h0 := h 0 (by simp)
      rw [List.getD_cons_zero] at h0
      omega
    · rw [if_neg hc]
      push_neg at hc
      rw [ih (i + 1)]
      constructor
      · intro h j hj
        cases j with
        | zero => simpa [List.getD_cons_zero] using hc
        | succ j' =>
          have hj' : j' < rest.length := by simpa using Nat.lt_of_succ_lt_succ hj
          have := h j' hj'
          rw [List.getD_cons_succ]
          omega
      · intro h j hj
        have := h (j + 1) (by simp only [List.length_cons]; omega)
        rw [List.getD_cons_succ] at this
        omega

/-- The validator reports nothing exactly when the three FontTable invariants
hold: declared glyph count, per-glyph byte count, dense codepoint sequence. -/
theorem validationErrors_eq_nil_iff (fd : FontData) :
    validationErrors fd = [] ↔
      ((fd.characters.length : Int) = (fd.char_end : Int) - (fd.char_start : Int) + 1
        ∧ (∀ c ∈ fd.characters, c.bytes.length = fd.height * ((fd.width + 7) / 8))
        ∧ ∀ i < fd.characters.length,
            (fd.characters.getD i ⟨0, [], []⟩).codepoint = fd.char_start + i) := by
  simp only [validationErrors]
  rw [List.append_eq_nil, List.append_eq_nil, and_assoc]
  refine and_congr ?_ (and_congr ?_ ?_)
  · by_cases h : (fd.characters.length : Int) ≠ (fd.char_end : Int) - (fd.char_start : Int) + 1
    · rw [if_pos h]
      exact iff_of_false (by simp) h
    · rw [if_neg h]
      push_neg at h
      exact iff_of_true rfl h
  · cases hf : List.find? (fun c => c.bytes.length != fd.height * ((fd.width + 7) / 8)) fd.characters with
    | none =>
      rw [List.find?_eq_none] at hf
      refine iff_of_true rfl fun c hc => ?_
      have := hf c hc
      simpa using this
    | some c =>
      refine iff_of_false (by simp) fun hall => ?_
      have h1 := List.find?_some hf
      have h2 := List.mem_of_find?_eq_some hf
      have := hall c h2
      simp [this] at h1
  · cases hs : firstSeqErrAux fd.char_start 0 fd.characters with
    | none =>
      rw [firstSeqErrAux_eq_none_iff] at hs
      refine iff_of_true rfl fun i hi => ?_
      have := hs i hi
      omega
    | some e =>
      refine iff_of_false (by simp) fun hall => ?_
      have hnone : firstSeqErrAux fd.char_start 0 fd.characters = none :=
        (firstSeqErrAux_eq_none_iff _ _ _).mpr fun j hj => by
          have := hall j hj
          omega
      rw [hnone] at hs
      cases hs

/-- The table built by the encoder passes all three validator checks. -/
theorem validation_of_convert (glyphSource : Nat → Nat → Nat → Nat) (nm : List Char)
    (width height start_char end_char : Nat) (hse : start_char ≤ end_char) :
    validationErrors
      (enc_font_data (convert_ttf_to_rm690b0 glyphSource width height start_char end_char)
        nm width height start_char end_char) = [] := by
  rw [validationErrors_eq_nil_iff]
  refine ⟨?_, ?_, ?_⟩
  · simp only [enc_font_data, convert_ttf_to_rm690b0, List.length_map, List.length_range]
    omega
  · intro c hc
    simp only [enc_font_data, List.mem_map] at hc
    obtain ⟨c', hc', rfl⟩ := hc
    simp only [convert_ttf_to_rm690b0, List.mem_map, List.mem_range] at hc'
    obtain ⟨i, _, rfl⟩ := hc'
    simp [enc_font_data, length_rows_to_bytes, length_render_character]
  · intro i hi
    simp only [enc_font_data, convert_ttf_to_rm690b0, List.map_map, List.length_map,
      List.length_range] at hi ⊢
    rw [List.getD_eq_getElem?_getD, List.getElem?_map, List.getElem?_range hi]
    simp

/-- C3: encoder output satisfies every FontTable invariant.  For every valid
configuration (1 ≤ width, height ≤ 64, start ≤ end) and every glyph source,
`convert_ttf_to_rm690b0` produces exactly `end - start + 1` glyphs, the glyph
at index `i` carries codepoint `start + i`, every glyph has exactly
`height * ceil(width / 8)` bytes, and the decoder-side validation of that
table against its declared metadata reports no violation. -/
theorem convert_output_satisfies_invariants (glyphSource : Nat → Nat → Nat → Nat)
    (nm : List Char) (width height start_char end_char : Nat)
    (_hw1 : 1 ≤ width) (_hw2 : width ≤ 64) (_hh1 : 1 ≤ height) (_hh2 : height ≤ 64)
    (hse : start_char ≤ end_char) :
    (convert_ttf_to_rm690b0 glyphSource width height start_char end_char).length
        = end_char - start_char + 1
    ∧ (∀ i < (convert_ttf_to_rm690b0 glyphSource width height start_char end_char).length,
        ((convert_ttf_to_rm690b0 glyphSource width height start_char end_char).getD i
            ⟨0, 'A', []⟩).codepoint = start_char + i)
    ∧ (∀ c ∈ convert_ttf_to_rm690b0 glyphSource width height start_char end_char,
        c.bytes.length = height * ((width + 7) / 8))
    ∧ validationErrors
        (enc_font_data (convert_ttf_to_rm690b0 glyphSource width height start_char end_char)
          nm width height start_char end_char) = [] := by
  refine ⟨?_, ?_, ?_, validation_of_convert glyphSource nm width height start_char end_char hse⟩
  · simp only [convert_ttf_to_rm690b0, List.length_map, List.length_range]
    omega
  · intro i hi
    simp only [convert_ttf_to_rm690b0, List.length_map, List.length_range] at hi
    simp only [convert_ttf_to_rm690b0]
    rw [List.getD_eq_getElem?_getD, List.getElem?_map, List.getElem?_range hi]
    rfl
  · intro c hc
    simp only [convert_ttf_to_rm690b0, List.mem_map, List.mem_range] at hc
    obtain ⟨i, _, rfl⟩ := hc
    simp [length_rows_to_bytes, length_render_character]

/-- C3 witness: an 8×8 conversion of the range 0x41..0x42 with a blank glyph
source. -/
theorem convert_output_satisfies_invariants_witness :
    (convert_ttf_to_rm690b0 (fun _ _ _ => 0) 8 8 65 66).length = 2
    ∧ (∀ i < (convert_ttf_to_rm690b0 (fun _ _ _ => 0) 8 8 65 66).length,
        ((convert_ttf_to_rm690b0 (fun _ _ _ => 0) 8 8 65 66).getD i
            ⟨0, 'A', []⟩).codepoint = 65 + i)
    ∧ (∀ c ∈ convert_ttf_to_rm690b0 (fun _ _ _ => 0) 8 8 65 66,
        c.bytes.length = 8 * ((8 + 7) / 8))
    ∧ validationErrors
        (enc_font_data (convert_ttf_to_rm690b0 (fun _ _ _ => 0) 8 8 65 66)
          (S "f") 8 8 65 66) = [] :=
  convert_output_satisfies_invariants (fun _ _ _ => 0) (S "f") 8 8 65 66
    (by decide) (by decide) (by decide) (by decide) (by decide)

/-! ### Theorems: validator behaviour -/

/-- The sequence check only ever produces a sequence-break finding. -/
theorem firstSeqErrAux_shape (s : Nat) :
    ∀ (l : List CharEntry) (i : Nat) (e : VErr),
      firstSeqErrAux s i l = some e → ∃ a b c, e = VErr.seqBreak a b c := by
  intro l
  induction l with
  | nil => intro i e h; cases h
  | cons c rest ih =>
    intro i e h
    simp only [firstSeqErrAux] at h
    by_cases hc : c.codepoint ≠ s + i
    · rw [if_pos hc] at h
      exact ⟨i, c.codepoint, s + i, by injection h with h; rw [← h]⟩
    · rw [if_neg hc] at h
      exact ih (i + 1) e h

/-- C5 counterexample: on `fd5` (count, byte length and sequence all wrong at
once) `test_font_file`'s validation reports three violations, not exactly one. -/
theorem validator_three_errors : (validationErrors fd5).length = 3 := by rfl

/-- C5 amended: the validator reports at most one violation per invariant
category — the first offender within each of the count, byte-length and
sequence checks, in that order — and reports nothing exactly when all three
invariants hold.  When several categories are violated simultaneously it
reports one finding per violated category (up to three), not only the first
violation found. -/
theorem validator_first_per_category (fd : FontData) :
    (validationErrors fd).length ≤ 3
    ∧ (validationErrors fd).countP isCountErr ≤ 1
    ∧ (validationErrors fd).countP isSizeErr ≤ 1
    ∧ (validationErrors fd).countP isSeqErr ≤ 1
    ∧ (validationErrors fd = [] ↔
        ((fd.characters.length : Int) = (fd.char_end : Int) - (fd.char_start : Int) + 1
          ∧ (∀ c ∈ fd.characters, c.bytes.length = fd.height * ((fd.width + 7) / 8))
          ∧ ∀ i < fd.characters.length,
              (fd.characters.getD i ⟨0, [], []⟩).codepoint = fd.char_start + i)) := by
  refine ⟨?_, ?_, ?_, ?_, validationErrors_eq_nil_iff fd⟩ <;>
    · simp only [validationErrors, List.length_append, List.countP_append]
      by_cases hc : (fd.characters.length : Int) ≠ (fd.char_end : Int) - (fd.char_start : Int) + 1 <;>
        cases hf : List.find? (fun c => c.bytes.length != fd.height * ((fd.width + 7) / 8)) fd.characters <;>
        cases hs : firstSeqErrAux fd.char_start 0 fd.characters <;>
        (try obtain ⟨a, b, c, rfl⟩ := firstSeqErrAux_shape _ _ _ _ hs) <;>
        simp [hc, List.countP, List.countP.go, isCountErr, isSizeErr, isSeqErr]

/-- The sequence check reports the first offending index with its found and
expected codepoints. -/
theorem firstSeqErrAux_eq_some_of (s : Nat) :
    ∀ (l : List CharEntry) (i k : Nat), k < l.length →
      (∀ j < k, (l.getD j ⟨0, [], []⟩).codepoint = s + i + j) →
      (l.getD k ⟨0, [], []⟩).codepoint ≠ s + i + k →
      firstSeqErrAux s i l
        = some (VErr.seqBreak (i + k) ((l.getD k ⟨0, [], []⟩).codepoint) (s + i + k)) := by
  intro l
  induction l with
  | nil => intro i k hk; simp at hk
  | cons c rest ih =>
    intro i k hk hgood hbad
    cases k with
    | zero =>
      rw [List.getD_cons_zero] at hbad ⊢
      simp only [firstSeqErrAux]
      rw [if_pos (by omega)]
      norm_num
    | succ k' =>
      have h0 := hgood 0 (by omega)
      rw [List.getD_cons_zero] at h0
      rw [List.getD_cons_succ] at hbad ⊢
      simp only [firstSeqErrAux]
      rw [if_neg (by omega)]
      have hk' : k' < rest.length := by
        simpa using Nat.lt_of_succ_lt_succ hk
      have hrec := ih (i + 1) k' hk'
        (fun j hj => by
          have := hgood (j + 1) (by omega)
          rw [List.getD_cons_succ] at this
          omega)
        (by omega)
      rw [hrec]
      have e1 : i + 1 + k' = i + (k' + 1) := by omega
      have e2 : s + (i + 1) + k' = s + i + (k' + 1) := by omega
      rw [e1, e2]

/-- C7: sequence-break detection at the correct index.  For every parsed
table whose glyph count and per-glyph byte counts are correct and in which
exactly one glyph — the one at index `k` — carries a codepoint different
from `char_start + k`, validation reports exactly one finding: a sequence
break naming index `k`, the found codepoint, and the expected codepoint
`char_start + k`. -/
theorem sequence_break_at_index (fd : FontData) (k : Nat)
    (hcount : (fd.characters.length : Int) = (fd.char_end : Int) - (fd.char_start : Int) + 1)
    (hsize : ∀ c ∈ fd.characters, c.bytes.length = fd.height * ((fd.width + 7) / 8))
    (hk : k < fd.characters.length)
    (hbad : (fd.characters.getD k ⟨0, [], []⟩).codepoint ≠ fd.char_start + k)
    (hgood : ∀ i < fd.characters.length, i ≠ k →
        (fd.characters.getD i ⟨0, [], []⟩).codepoint = fd.char_start + i) :
    validationErrors fd =
      [VErr.seqBreak k ((fd.characters.getD k ⟨0, [], []⟩).codepoint) (fd.char_start + k)] := by
  simp only [validationErrors]
  rw [if_neg (by omega : ¬(fd.characters.length : Int) ≠ (fd.char_end : Int) - (fd.char_start : Int) + 1)]
  have hfind : List.find? (fun c => c.bytes.length != fd.height * ((fd.width + 7) / 8))
      fd.characters = none := by
    rw [List.find?_eq_none]
    intro c hc
    simp [hsize c hc]
  rw [hfind]
  have hseq := firstSeqErrAux_eq_some_of fd.char_start fd.characters 0 k hk
    (fun j hj => by
      have := hgood j (by omega) (by omega)
      omega)
    (by omega)
  rw [hseq]
  norm_num

/-- C7 witness: in `fd7` only index 1 is corrupted (0x50 instead of 0x42) and
the validator reports exactly the sequence break at index 1. -/
theorem sequence_break_at_index_witness :
    validationErrors fd7 = [VErr.seqBreak 1 80 66] :=
  sequence_break_at_index fd7 1 (by decide) (by decide) (by decide) (by decide) (by decide)

/-! ### Theorems: visualizer compatibility -/

/-- The decoder's row-value reconstruction loop is the encoder's. -/
theorem viz_dec_row_value_eq_enc (bytes_per_row : Nat) :
    ∀ (l : List Nat) (rv i : Nat),
      viz_dec_row_value bytes_per_row rv i l = viz_enc_row_value bytes_per_row rv i l := by
  intro l
  induction l with
  | nil => intro rv i; rfl
  | cons b rest ih =>
    intro rv i
    simp only [viz_dec_row_value, viz_enc_row_value]
    exact ih _ (i + 1)

/-- Folding the decoder's glyph alphabet is folding the encoder's and then
translating each character. -/
theorem viz_line_fold_map (width row_value : Nat) :
    ∀ (xs : List Nat) (acc : List Char),
      xs.foldl
        (fun line x =>
          line ++ (if row_value &&& (1 <<< (width - 1 - x)) ≠ 0 then ['█'] else ['·']))
        (acc.map trViz)
        = (xs.foldl
            (fun line x =>
              line ++ (if row_value &&& (1 <<< (width - 1 - x)) ≠ 0 then ['#'] else ['.']))
            acc).map trViz := by
  intro xs
  induction xs with
  | nil => intro acc; rfl
  | cons x rest ih =>
    intro acc
    simp only [List.foldl_cons]
    rw [← ih]
    by_cases h : row_value &&& (1 <<< (width - 1 - x)) ≠ 0 <;> simp [h, trViz]

theorem viz_dec_line_eq_enc (width row_value : Nat) :
    viz_dec_line width row_value = (viz_enc_line width row_value).map trViz := by
  simp only [viz_dec_line, viz_enc_line]
  rw [show ([] : List Char) = ([] : List Char).map trViz from rfl]
  exact viz_line_fold_map width row_value (List.range width) []

/-- Translating glyph characters commutes with the newline join. -/
theorem joinNL_map_trViz : ∀ ls : List (List Char),
    joinNL (ls.map (List.map trViz)) = (joinNL ls).map trViz := by
  intro ls
  induction ls with
  | nil => rfl
  | cons l ls ih =>
    cases ls with
    | nil => rfl
    | cons l2 ls2 =>
      simp only [List.map_cons, joinNL, List.map_append]
      rw [show (List.map trViz l2 :: List.map (List.map trViz) ls2)
            = List.map (List.map trViz) (l2 :: ls2) from rfl, ih]
      simp [trViz]

/-- C8: the encoder's and the decoder's `visualize_character` decode the
packed bytes identically — for every byte list, width and height the decoder
output is exactly the encoder output with `#` replaced by `█` and `.` by `·`,
so the two mark the same pixels as foreground. -/
theorem visualizers_logic_compatible (byte_data : List Nat) (width height : Nat) :
    visualize_character_dec byte_data width height
      = (visualize_character_enc byte_data width height).map trViz := by
  simp only [visualize_character_dec, visualize_character_enc]
  rw [← joinNL_map_trViz, List.map_map]
  congr 1
  refine List.map_congr_left fun row _ => ?_
  simp only [Function.comp_apply]
  rw [viz_dec_row_value_eq_enc, viz_dec_line_eq_enc]

/-! ### Theorems: parser behaviour -/

/-- C9: `parse_font_header` rejects every header whose declared character
range starts at codepoint 0x00 — whatever the rest of the file holds, even
with all five metadata fields present and well-formed — with its
malformed-metadata error, because the parsed value 0 fails the truthiness
test used to detect missing fields. -/
theorem parse_rejects_zero_start (content : List Char) (char_end : Nat)
    (h : extractRange content = some (0, char_end)) :
    parse_font_header content = Except.error ParseErr.metadata := by
  simp [parse_font_header, h, truthyNum]

/-- C9 witness: the well-formed header `hdr9` declaring the range
0x00..0x41 is rejected with the metadata error. -/
theorem parse_rejects_zero_start_witness :
    parse_font_header hdr9 = Except.error ParseErr.metadata :=
  parse_rejects_zero_start hdr9 65 (by rfl)

/-- C6 counterexample: on the metadata-well-formed, zero-glyph header `hdr6`
`parse_font_header` does not fail at all — there is no EmptyTable error; it
returns the parsed table with an empty character list. -/
theorem parse_empty_table_succeeds :
    parse_font_header hdr6
      = Except.ok
          { name := S "f", width := 1, height := 1, char_start := 65, char_end := 65,
            characters := [] } := by
  rfl

/-- C6 amended: a header with well-formed metadata and zero glyph entries is
accepted by `parse_font_header` (zero parsed characters), and the failure
surfaces only afterwards: `test_font_file` then dies of an uncaught
IndexError when it reads the first glyph's byte count — not of a
distinguishable EmptyTable decode error. -/
theorem empty_table_index_error (content : List Char) (fd : FontData)
    (hok : parse_font_header content = Except.ok fd) (hempty : fd.characters = []) :
    test_font_file content = Except.error PyErr.indexError := by
  simp [test_font_file, hok, hempty]

/-- C6 witness: `test_font_file` on `hdr6` dies of the IndexError. -/
theorem empty_table_index_error_witness :
    test_font_file hdr6 = Except.error PyErr.indexError :=
  empty_table_index_error hdr6
    { name := S "f", width := 1, height := 1, char_start := 65, char_end := 65,
      characters := [] }
    (by rfl) rfl

/-- C10: the header `hdr10` is accepted by `parse_font_header` with the glyph
byte value 511 = 0x1FF (the hex-literal pattern takes literals of any width),
and it passes all three validation checks — `test_font_file` returns 0 —
because neither parser nor validator checks that a parsed value fits in one
byte, only the count of values per glyph. -/
theorem overwide_byte_accepted :
    parse_font_header hdr10 = Except.ok fd10
    ∧ test_font_file hdr10 = Except.ok 0
    ∧ ∃ c ∈ fd10.characters, ∃ b ∈ c.bytes, 255 < b := by
  refine ⟨by rfl, by rfl, ?_⟩
  refine ⟨{ codepoint := 65, char := ['A'], bytes := [511] }, by simp [fd10], 511, by simp, by omega⟩

/-- C4: the serializer-parser round trip breaks on every table emitted with
`codepoint_start = 0`: the emitted header for the single-glyph table at
codepoint 0x00 is rejected outright by `parse_font_header` (metadata error,
because the parsed start value 0 is falsy), so no re-serialization — let
alone a byte-identical one — is possible. -/
theorem serialize_parse_fails_at_start_zero :
    (generate_header_file [{ codepoint := 0, char := Char.ofNat 0, bytes := [0] }]
        (S "f") 1 1 0 (S "t")).map parse_font_header
      = some (Except.error ParseErr.metadata) := by
  rfl

/-- Supporting evidence for C4's verdict that only `codepoint_start = 0` is at
fault: for a two-glyph 8×1 table starting at 0x41, parsing the emitted header
and re-serializing the parse result with the same configuration reproduces
the emitted header byte for byte. -/
theorem reserialize_identity_example :
    (match parse_font_header ((generate_header_file
        [{ codepoint := 65, char := 'A', bytes := [171] },
         { codepoint := 66, char := 'B', bytes := [18] }]
        (S "f") 8 1 65 (S "t")).getD []) with
      | Except.error _ => none
      | Except.ok fd =>
        generate_header_file
          (fd.characters.map fun c =>
            { codepoint := c.codepoint, char := c.char.getD 0 'A', bytes := c.bytes })
          fd.name fd.width fd.height fd.char_start (S "t"))
      = generate_header_file
          [{ codepoint := 65, char := 'A', bytes := [171] },
           { codepoint := 66, char := 'B', bytes := [18] }]
          (S "f") 8 1 65 (S "t") := by
  rfl
